import Mathlib

/-!
Verification of the AWS IAM data-fetching scripts.

The repository has three Python scripts:
  fetch_iam_full.py               - HTML-scraping pipeline (resolver, table parser,
                                    dependency extractor, sequential orchestrator)
  fetch_iam_data.py               - directory-backed pipeline (JSON consumption,
                                    access-level mapping, concurrent orchestrator)
  fetch_iam_data_with_dependent.py - directory pipeline plus an HTML dependent-action
                                    scraper

This file shallowly embeds the parsing, normalization, resolution and
orchestration logic of those scripts.  Network transport is abstracted as a
probe or fetch function passed in as a parameter; HTML pages are abstracted
to their table structure (header-cell texts plus rows of cells, where a cell
carries its concatenated text and the texts of its embedded anchors).
-/

namespace AwsIam

/-- Model of Python str.strip(): drop leading and trailing whitespace. -/
def pyStrip (s : String) : String :=
  String.mk (((s.data.dropWhile Char.isWhitespace).reverse.dropWhile Char.isWhitespace).reverse)

/-- Model of Python str.lower(): lower-case every character. -/
def pyLower (s : String) : String :=
  String.mk (s.data.map Char.toLower)

/-- Does the first list start with the second list of characters? -/
def startsChars : List Char → List Char → Bool
  | [], _ => true
  | _ :: _, [] => false
  | a :: as, b :: bs => a == b && startsChars as bs

/-- Does the character list contain the needle as a contiguous run? -/
def subChars (needle : List Char) : List Char → Bool
  | [] => startsChars needle []
  | c :: rest => startsChars needle (c :: rest) || subChars needle rest

/-- Model of the Python substring test: needle in haystack. -/
def pyContains (haystack needle : String) : Bool :=
  subChars needle.data haystack.data

/-- One table cell: its concatenated text content (get_text) and the text of
each embedded anchor element (find_all of a), in document order. -/
structure Cell where
  text : String
  links : List String
deriving DecidableEq, Repr

/-- Indexing into a cell list; the scripts only index under a length guard,
so the default cell is never reached on guarded paths. -/
def cellAt (cells : List Cell) (i : Nat) : Cell :=
  cells.getD i ⟨"", []⟩

/-- The properties dictionary computed at fetch_iam_full.py lines 156 to 164
from the lower-cased access-level text. -/
structure ActionProps where
  isList : Bool
  isRead : Bool
  isWrite : Bool
  isPermissionManagement : Bool
  isTaggingOnly : Bool
deriving DecidableEq, Repr

/-- fetch_iam_full.py lines 156 to 164: substring tests over the lower-cased
access-level text. -/
def mkProperties (accessLevelText : String) : ActionProps :=
  let access := pyLower accessLevelText
  { isList := pyContains access "list"
    isRead := pyContains access "read" && !(pyContains access "write")
    isWrite := pyContains access "write"
    isPermissionManagement := pyContains access "permission" || pyContains access "management"
    isTaggingOnly := pyContains access "tagging" }

/-- The per-operation record built by scrape_service_data in fetch_iam_full.py. -/
structure ActionData where
  name : String
  description : String
  accessLevel : String
  resources : List String
  conditionKeys : List String
  dependentActions : List String
  supportsResourceLevelPermissions : Bool
  hasRequestTag : Bool
  hasResourceTag : Bool
  hasTagKeys : Bool
  properties : ActionProps
deriving DecidableEq, Repr

/-- fetch_iam_full.py lines 113 to 123: one step of the resource-link loop of a
primary row; state is the resource list so far and the wildcard flag. -/
def primaryResourceStep (st : List String × Bool) (link : String) : List String × Bool :=
  let rn := pyStrip link
  if rn ≠ "" then
    (st.1 ++ [rn], if pyContains rn "*" then true else st.2)
  else st

/-- Resource names and wildcard flag collected from the links of cell 3 of a
primary row (fetch_iam_full.py lines 113 to 123). -/
def primaryResources (links : List String) : List String × Bool :=
  links.foldl primaryResourceStep ([], false)

/-- Character class of the service part of the dependency pattern,
bracket a to z, 0 to 9 and hyphen. -/
def isSvcChar (c : Char) : Bool :=
  c.isLower || c.isDigit || c == '-'

/-- Character class of the action tail of the dependency pattern. -/
def isActChar (c : Char) : Bool :=
  c.isAlphanum

/-- Attempt to match the dependency regex at the head of the character list.
The pattern is a nonempty run of service characters, a colon, an upper-case
letter, then a nonempty run of alphanumerics; both runs are greedy and, since
the service class excludes the colon, backtracking is never productive, so
maximal runs are faithful to the Python regex engine. Returns the matched
text and the rest of the input after the match. -/
def tryDepMatch (cs : List Char) : Option (String × List Char) :=
  let svc := cs.takeWhile isSvcChar
  if svc.isEmpty then none else
    match cs.dropWhile isSvcChar with
    | ':' :: c :: rest =>
      if c.isUpper then
        let act := rest.takeWhile isActChar
        if act.isEmpty then none
        else some (String.mk (svc ++ ':' :: c :: act), rest.dropWhile isActChar)
      else none
    | _ => none

/-- Scan for all non-overlapping leftmost matches, advancing one character on
failure, exactly as re.findall does. Fuel-indexed for structural recursion;
every step consumes at least one character, so fuel equal to the input length
never runs out. -/
def findDepsAux : Nat → List Char → List String
  | 0, _ => []
  | _, [] => []
  | fuel + 1, c :: rest =>
    match tryDepMatch (c :: rest) with
    | some (m, rest4) => m :: findDepsAux fuel rest4
    | none => findDepsAux fuel rest

/-- Model of re.findall of the pattern at fetch_iam_full.py line 138 followed
by reassembling each pair as svc colon act, which recovers exactly the matched
text. -/
def findDeps (s : String) : List String :=
  findDepsAux s.data.length s.data

/-- fetch_iam_full.py lines 96 to 167: parse a primary operations-table row
(at least 6 cells) into a fresh ActionData. -/
def parsePrimaryRow (cells : List Cell) : ActionData :=
  let nameText := pyStrip (cellAt cells 0).text
  let descText := if 1 < cells.length then pyStrip (cellAt cells 1).text else ""
  let accessText := if 2 < cells.length then pyStrip (cellAt cells 2).text else "Unknown"
  let res := if 3 < cells.length then primaryResources (cellAt cells 3).links else ([], false)
  let condKeys :=
    if 4 < cells.length then
      ((cellAt cells 4).links.map pyStrip).filter (fun k => !(k == "") && pyContains k ":")
    else []
  let deps :=
    if 5 < cells.length then findDeps (pyStrip (cells.getLastD ⟨"", []⟩).text) else []
  { name := nameText
    description := descText
    accessLevel := accessText
    resources := res.1
    conditionKeys := condKeys
    dependentActions := deps
    supportsResourceLevelPermissions := res.2
    hasRequestTag := condKeys.any (fun k => pyContains k "RequestTag")
    hasResourceTag := condKeys.any (fun k => pyContains k "ResourceTag")
    hasTagKeys := condKeys.any (fun k => pyContains k "TagKeys")
    properties := mkProperties accessText }

/-- fetch_iam_full.py lines 173 to 183: one link of a continuation row, merged
into the current action with duplicate suppression by name. -/
def continuationStep (a : ActionData) (link : String) : ActionData :=
  let rn := pyStrip link
  if rn ≠ "" ∧ rn ∉ a.resources then
    { a with
      resources := a.resources ++ [rn]
      supportsResourceLevelPermissions :=
        if pyContains rn "*" then true else a.supportsResourceLevelPermissions }
  else a

/-- fetch_iam_full.py lines 169 to 183: merge the first cell of a continuation
row into the current action. -/
def applyContinuation (a : ActionData) (c : Cell) : ActionData :=
  c.links.foldl continuationStep a

/-- fetch_iam_full.py lines 91 to 183: one row of the operations table. The
accumulator holds the actions built so far in reverse order, so its head is
the current action; it is empty exactly when current_action is None. -/
def actionRowStep (acc : List ActionData) (cells : List Cell) : List ActionData :=
  if 6 ≤ cells.length then
    parsePrimaryRow cells :: acc
  else if cells.length = 3 then
    match acc with
    | [] => []
    | cur :: rest => applyContinuation cur (cellAt cells 0) :: rest
  else acc

/-- All operation records of one operations table, in the order they were
created; the fold mirrors the row loop with its current-action state. -/
def parseActionRows (rows : List (List Cell)) : List ActionData :=
  (rows.foldl actionRowStep []).reverse

/-- Record of the resource-types table (fetch_iam_full.py lines 186 to 199). -/
structure ResourceData where
  name : String
  arnFormats : List String
deriving DecidableEq, Repr

/-- Record of the condition-keys table (fetch_iam_full.py lines 202 to 215). -/
structure CondKeyData where
  name : String
  types : List String
deriving DecidableEq, Repr

/-- One row of the resource-types table. -/
def parseResourceRow (acc : List ResourceData) (cells : List Cell) : List ResourceData :=
  if 2 ≤ cells.length then
    let rn := pyStrip (cellAt cells 0).text
    let arn := pyStrip (cellAt cells 1).text
    if rn ≠ "" then acc ++ [⟨rn, if arn ≠ "" then [arn] else []⟩] else acc
  else acc

def parseResourceRows (rows : List (List Cell)) : List ResourceData :=
  rows.foldl parseResourceRow []

/-- One row of the condition-keys table; an empty type cell defaults to the
String type. -/
def parseCondKeyRow (acc : List CondKeyData) (cells : List Cell) : List CondKeyData :=
  if 2 ≤ cells.length then
    let kn := pyStrip (cellAt cells 0).text
    let kt := pyStrip (cellAt cells 1).text
    if kn ≠ "" then acc ++ [⟨kn, if kt ≠ "" then [kt] else ["String"]⟩] else acc
  else acc

def parseCondKeyRows (rows : List (List Cell)) : List CondKeyData :=
  rows.foldl parseCondKeyRow []

/-- One HTML table: the texts of all th elements of the table, and all tr
rows, each row being its td and th cells in order. The scripts drop the
first tr as the header row. -/
structure HtmlTable where
  ths : List String
  trs : List (List Cell)
deriving DecidableEq, Repr

/-- fetch_iam_full.py line 84: the stripped header-cell texts of a table. -/
def tableHeaderTexts (t : HtmlTable) : List String :=
  t.ths.map pyStrip

/-- fetch_iam_full.py line 87: operations-table signature, exact membership. -/
def opsSig (t : HtmlTable) : Bool :=
  (tableHeaderTexts t).contains "Actions" && (tableHeaderTexts t).contains "Access level"

/-- fetch_iam_full.py line 186: resource-types-table signature. -/
def resSig (t : HtmlTable) : Bool :=
  (tableHeaderTexts t).contains "Resource types" && (tableHeaderTexts t).contains "ARN"

/-- fetch_iam_full.py line 202: condition-keys-table signature. -/
def condSig (t : HtmlTable) : Bool :=
  (tableHeaderTexts t).contains "Condition keys" && (tableHeaderTexts t).contains "Type"

/-- The three per-service lists accumulated by scrape_service_data. -/
structure ScrapeResult where
  actions : List ActionData
  resources : List ResourceData
  conditionKeys : List CondKeyData
deriving DecidableEq, Repr

/-- fetch_iam_full.py lines 83 to 215: classify one table by its header
signature, in the if-elif order of the code, and append its parsed rows to
the matching category. -/
def scrapeTableStep (acc : ScrapeResult) (t : HtmlTable) : ScrapeResult :=
  if opsSig t then
    { acc with actions := acc.actions ++ parseActionRows (t.trs.drop 1) }
  else if resSig t then
    { acc with resources := acc.resources ++ parseResourceRows (t.trs.drop 1) }
  else if condSig t then
    { acc with conditionKeys := acc.conditionKeys ++ parseCondKeyRows (t.trs.drop 1) }
  else acc

/-- The table-parsing core of scrape_service_data: all tables of the page
processed in order against initially empty category lists. -/
def scrape_page (tables : List HtmlTable) : ScrapeResult :=
  tables.foldl scrapeTableStep ⟨[], [], []⟩

/-! Document page resolver, fetch_iam_full.py lines 15 to 57. -/

def DOCS_BASE_URL : String :=
  "https://docs.aws.amazon.com/service-authorization/latest/reference"

/-- fetch_iam_full.py lines 32 to 33: replace hyphens with nothing, replace
underscores with nothing, then lower-case. Replacing a single character with
the empty string is removal of every occurrence of that character. -/
def normalize_service_name (s : String) : String :=
  pyLower (String.mk ((s.data.filter (fun c => !(c == '-'))).filter (fun c => !(c == '_'))))

/-- fetch_iam_full.py lines 19 to 23, each pattern applied to the normalized
name by str.format. -/
def SERVICE_URL_PATTERNS : List (String → String) :=
  [fun s => "list_amazon" ++ s ++ ".html",
   fun s => "list_aws" ++ s ++ ".html",
   fun s => "list_" ++ s ++ ".html"]

/-- fetch_iam_full.py lines 25 to 29. -/
def SERVICE_SPECIAL_CASES : List (String × String) :=
  [("iam", "list_awsidentityandaccessmanagementiam.html"),
   ("identityandaccessmanagement", "list_awsidentityandaccessmanagementiam.html"),
   ("glue", "list_awsglue.html")]

/-- First URL of the list whose existence probe succeeds; a probe that raises
or returns a non-200 status is a failed probe. -/
def firstProbeSuccess (probe : String → Bool) : List String → Option String
  | [] => none
  | u :: rest => if probe u then some u else firstProbeSuccess probe rest

/-- The three template URLs generated for a normalized name, in pattern
order. -/
def patternUrls (normalized : String) : List String :=
  SERVICE_URL_PATTERNS.map (fun p => DOCS_BASE_URL ++ "/" ++ p normalized)

/-- fetch_iam_full.py lines 36 to 57: probe the special-case URL first when
the normalized name has an override, then the generated template URLs in
order; None when every probe fails. The probe parameter abstracts the HEAD
request with redirects. -/
def get_service_doc_url (probe : String → Bool) (service_name : String) : Option String :=
  let normalized := normalize_service_name service_name
  match SERVICE_SPECIAL_CASES.lookup normalized with
  | some page =>
    let url := DOCS_BASE_URL ++ "/" ++ page
    if probe url then some url else firstProbeSuccess probe (patternUrls normalized)
  | none => firstProbeSuccess probe (patternUrls normalized)

/-! Pieces of fetch_iam_data.py used by the claims. -/

/-- fetch_iam_data.py lines 94 to 108: priority chain over the annotation
properties. -/
def get_access_level (props : ActionProps) : String :=
  if props.isList then "List"
  else if props.isWrite then "Write"
  else if props.isPermissionManagement then "Permissions management"
  else if props.isTaggingOnly then "Tagging"
  else "Read"

/-- fetch_iam_data.py lines 54 to 55: the directory pipeline sets the
resource-level-permissions flag exactly when the Resources list of the
action is non-empty. -/
def fetch_supportsRLP (resources : List String) : Bool :=
  decide (0 < resources.length)

/-! Dependency extractor of fetch_iam_data_with_dependent.py lines 149 to 170. -/

/-- One embedded hyperlink of the trailing cell: appended when its stripped
text is non-empty, holds a colon and is not already extracted. -/
def depLinkStep (acc : List String) (link : String) : List String :=
  let dep := pyStrip link
  if dep ≠ "" ∧ pyContains dep ":" ∧ dep ∉ acc then acc ++ [dep] else acc

/-- The dependency extractor: regex matches over the stripped cell text in
order, then the hyperlink texts with the colon and duplicate checks. -/
def extract_dependent_actions (cellText : String) (linkTexts : List String) : List String :=
  linkTexts.foldl depLinkStep (findDeps (pyStrip cellText))

/-! Orchestration and consolidation, fetch_iam_full.py lines 244 to 279 and
fetch_iam_data.py lines 119 to 155. -/

/-- One per-service entry of the consolidated output. -/
structure ServiceRecord where
  service : String
  payload : ScrapeResult
deriving DecidableEq, Repr

/-- One service processed: a successful fetch (with or without actions) is
appended to the data list, a failed one to the failure list. -/
def collectStep (fetch : String → Option ScrapeResult)
    (acc : List ServiceRecord × List String) (name : String) :
    List ServiceRecord × List String :=
  match fetch name with
  | some d => (acc.1 ++ [⟨name, d⟩], acc.2)
  | none => (acc.1, acc.2 ++ [name])

/-- The service loop: every service attempted exactly once, in the given
order; under the concurrent variant the order is the completion order. -/
def collectResults (fetch : String → Option ScrapeResult) (order : List String) :
    List ServiceRecord × List String :=
  order.foldl (collectStep fetch) ([], [])

/-- Python string comparison: lexicographic by code point, the order the
final sort of the scripts compares service ids with. -/
def strLeB : List Char → List Char → Bool
  | [], _ => true
  | _ :: _, [] => false
  | a :: as, b :: bs =>
    if a.toNat < b.toNat then true
    else if b.toNat < a.toNat then false
    else strLeB as bs

/-- The sort key of the final sort: ascending service id. -/
def recLE (a b : ServiceRecord) : Prop :=
  strLeB a.service.data b.service.data = true

instance : DecidableRel recLE :=
  fun a b => inferInstanceAs (Decidable (strLeB a.service.data b.service.data = true))

/-- The final in-place sort by service id. -/
def sortByService (l : List ServiceRecord) : List ServiceRecord :=
  List.insertionSort recLE l

/-- The consolidated output document. -/
structure Dataset where
  services : List ServiceRecord
  totalServices : Nat
  failedServices : List String
deriving DecidableEq, Repr

/-- The whole run after the directory fetch: collect per-service outcomes in
processing order, sort the successes by service id, report the count and the
failures. -/
def runPipeline (fetch : String → Option ScrapeResult) (order : List String) : Dataset :=
  let collected := collectResults fetch order
  let sorted := sortByService collected.1
  { services := sorted, totalServices := sorted.length, failedServices := collected.2 }

/-! Spec-side definitions, written from the wording of the specification for
comparison with the code-side definitions above. -/

/-- Spec wording of normalization: remove all hyphens and underscores and
lower-case the result, in one pass. -/
def normalizeSpec (s : String) : String :=
  String.mk ((s.data.filter (fun c => !(c == '-') && !(c == '_'))).map Char.toLower)

/-- The access-level enumeration of the spec data model. -/
inductive AccessTier
  | list
  | write
  | permissionsManagement
  | tagging
  | read
deriving DecidableEq, Repr

/-- Spec wording of the access-level mapping: substring rules in priority
order over the text. -/
def accessTierSpec (t : String) : AccessTier :=
  let a := pyLower t
  if pyContains a "list" then .list
  else if pyContains a "write" then .write
  else if pyContains a "permission" || pyContains a "management" then .permissionsManagement
  else if pyContains a "tagging" then .tagging
  else .read

/-- The label the code uses for each tier. -/
def tierLabel : AccessTier → String
  | .list => "List"
  | .write => "Write"
  | .permissionsManagement => "Permissions management"
  | .tagging => "Tagging"
  | .read => "Read"

/-- Spec wording of the operations-table signature: case-insensitive
substring match over the header-cell texts. -/
def opsSigSpec (ths : List String) : Bool :=
  (ths.map (fun h => pyLower (pyStrip h))).any (fun h => pyContains h "actions")
    && (ths.map (fun h => pyLower (pyStrip h))).any (fun h => pyContains h "access level")

/-! Concrete fixture data used by counterexamples and witnesses. -/

/-- A primary row: 6 cells, one resource link without a wildcard marker. -/
def exPrimaryRow : List Cell :=
  [⟨"GetThing", []⟩, ⟨"Grants permission to get a thing", []⟩, ⟨"Read", []⟩,
   ⟨"", ["bucket"]⟩, ⟨"", []⟩, ⟨"", []⟩]

/-- A primary row whose resource-type cell is empty. -/
def exEmptyResRow : List Cell :=
  [⟨"ListThings", []⟩, ⟨"Grants permission to list things", []⟩, ⟨"List", []⟩,
   ⟨"", []⟩, ⟨"", []⟩, ⟨"", []⟩]

/-- A primary row whose condition-key cell mixes a namespaced link, a link
without a colon, and plain text that is not a link. -/
def exCondRow : List Cell :=
  [⟨"TagThing", []⟩, ⟨"Grants permission to tag a thing", []⟩, ⟨"Tagging", []⟩,
   ⟨"", []⟩, ⟨"textonly:Ignored plain mention", ["aws:RequestTag/TagKey", "NoColonKey"]⟩,
   ⟨"", []⟩]

/-- The header row of the fixture tables. -/
def exHeaderRow : List Cell :=
  [⟨"Actions", []⟩, ⟨"Access level", []⟩]

/-- A table whose header cells carry the operations signature only up to
letter case. -/
def exLowerTable : HtmlTable :=
  ⟨["actions", "access level"], [exHeaderRow, exPrimaryRow]⟩

/-- The same table with the exact header texts the code looks for. -/
def exUpperTable : HtmlTable :=
  ⟨["Actions", "Access level"], [exHeaderRow, exPrimaryRow]⟩

/-- The same table with the header texts listed in the opposite order. -/
def exSwappedTable : HtmlTable :=
  ⟨["Access level", "Actions"], [exHeaderRow, exPrimaryRow]⟩

/-- The action parsed from the fixture primary row. -/
def exAction : ActionData :=
  parsePrimaryRow exPrimaryRow

/-- A fetch function for a three-service directory where the second service
fails hard and the third succeeds with zero operations. -/
def exFetch : String → Option ScrapeResult := fun n =>
  if n = "svcB" then none
  else if n = "svcC" then some ⟨[], [], []⟩
  else some ⟨[exAction], [], []⟩

/-! Helper lemmas. -/

/-- Code-point comparison is total. -/
lemma strLeB_total : ∀ as bs : List Char, strLeB as bs = true ∨ strLeB bs as = true := by
  intro as
  induction as with
  | nil => exact fun bs => Or.inl rfl
  | cons a as ih =>
    intro bs
    cases bs with
    | nil => exact Or.inr rfl
    | cons b bs =>
      by_cases h1 : a.toNat < b.toNat
      · left
        simp [strLeB, h1]
      · by_cases h2 : b.toNat < a.toNat
        · right
          simp [strLeB, h1, h2]
        · rcases ih bs with h | h
          · left
            simp [strLeB, h1, h2, h]
          · right
            simp [strLeB, h1, h2, h]

/-- Head characterization of the code-point comparison. -/
lemma strLeB_cons (a b : Char) (as bs : List Char) :
    strLeB (a :: as) (b :: bs) = true ↔
      a.toNat < b.toNat ∨ (a.toNat = b.toNat ∧ strLeB as bs = true) := by
  simp only [strLeB]
  by_cases h1 : a.toNat < b.toNat
  · simp [h1]
  · by_cases h2 : b.toNat < a.toNat
    · simp only [if_neg h1, if_pos h2]
      constructor
      · intro h
        cases h
      · intro h
        rcases h with h | ⟨he, _⟩
        · omega
        · omega
    · have he : a.toNat = b.toNat := by omega
      simp [h1, h2, he]

/-- Code-point comparison is transitive. -/
lemma strLeB_trans : ∀ as bs cs : List Char,
    strLeB as bs = true → strLeB bs cs = true → strLeB as cs = true := by
  intro as
  induction as with
  | nil => intro bs cs _ _; rfl
  | cons a as ih =>
    intro bs cs h1 h2
    cases bs with
    | nil => simp [strLeB] at h1
    | cons b bs =>
      cases cs with
      | nil => simp [strLeB] at h2
      | cons c cs =>
        rw [strLeB_cons] at h1 h2 ⊢
        rcases h1 with h1 | ⟨h1e, h1r⟩
        · rcases h2 with h2 | ⟨h2e, _⟩
          · exact Or.inl (by omega)
          · exact Or.inl (by omega)
        · rcases h2 with h2 | ⟨h2e, h2r⟩
          · exact Or.inl (by omega)
          · exact Or.inr ⟨by omega, ih bs cs h1r h2r⟩

instance : IsTotal ServiceRecord recLE :=
  ⟨fun a b => strLeB_total a.service.data b.service.data⟩

instance : IsTrans ServiceRecord recLE :=
  ⟨fun a b c h1 h2 => strLeB_trans a.service.data b.service.data c.service.data h1 h2⟩

/-- Elements produced by the operations-table row fold satisfy any property
that holds of freshly parsed primary rows and is preserved by continuation
merging. -/
lemma foldl_actionRowStep_mem (P : ActionData → Prop)
    (hprim : ∀ cells, P (parsePrimaryRow cells))
    (hcont : ∀ a c, P a → P (applyContinuation a c)) :
    ∀ (rows : List (List Cell)) (acc : List ActionData), (∀ a ∈ acc, P a) →
      ∀ a ∈ rows.foldl actionRowStep acc, P a := by
  intro rows
  induction rows with
  | nil => exact fun acc hacc => hacc
  | cons r rs ih =>
    intro acc hacc
    have hstep : ∀ a ∈ actionRowStep acc r, P a := by
      intro a ha
      unfold actionRowStep at ha
      split at ha
      · rcases List.mem_cons.mp ha with h | h
        · exact h ▸ hprim r
        · exact hacc a h
      · split at ha
        · cases acc with
          | nil => simp at ha
          | cons cur rest =>
            rcases List.mem_cons.mp ha with h | h
            · exact h ▸ hcont cur _ (hacc cur (List.mem_cons_self cur rest))
            · exact hacc a (List.mem_cons_of_mem cur h)
        · exact hacc a ha
    exact ih (actionRowStep acc r) hstep

/-- Invariant transfer to whole parsed tables. -/
lemma parseActionRows_invariant (P : ActionData → Prop)
    (hprim : ∀ cells, P (parsePrimaryRow cells))
    (hcont : ∀ a c, P a → P (applyContinuation a c)) :
    ∀ rows a, a ∈ parseActionRows rows → P a := by
  intro rows a ha
  unfold parseActionRows at ha
  exact foldl_actionRowStep_mem P hprim hcont rows [] (by simp) a (List.mem_reverse.mp ha)

/-- A continuation step never changes the condition keys of the action. -/
lemma continuationStep_conditionKeys (a : ActionData) (l : String) :
    (continuationStep a l).conditionKeys = a.conditionKeys := by
  simp only [continuationStep]
  split <;> rfl

/-- Continuation merging never changes the condition keys of the action. -/
lemma applyContinuation_conditionKeys (a : ActionData) (c : Cell) :
    (applyContinuation a c).conditionKeys = a.conditionKeys := by
  unfold applyContinuation
  induction c.links generalizing a with
  | nil => rfl
  | cons l ls ih => simpa [continuationStep_conditionKeys] using ih (continuationStep a l)

/-- The resource fold of a continuation row extends the resource list by a
duplicate-free block of new names taken from the stripped link texts, and
every non-empty stripped link text ends up in the final list. -/
lemma continuation_fold_spec (links : List String) :
    ∀ a : ActionData, ∃ extra : List String,
      (links.foldl continuationStep a).resources = a.resources ++ extra
      ∧ (∀ x ∈ extra, x ∈ links.map pyStrip ∧ x ∉ a.resources)
      ∧ extra.Nodup
      ∧ (∀ l ∈ links, pyStrip l ≠ "" → pyStrip l ∈ (links.foldl continuationStep a).resources) := by
  induction links with
  | nil =>
    intro a
    exact ⟨[], by simp, by simp, List.nodup_nil, by simp⟩
  | cons l ls ih =>
    intro a
    simp only [List.foldl_cons]
    by_cases hc : pyStrip l ≠ "" ∧ pyStrip l ∉ a.resources
    · have hstep : continuationStep a l =
          { a with
            resources := a.resources ++ [pyStrip l]
            supportsResourceLevelPermissions :=
              if pyContains (pyStrip l) "*" then true
              else a.supportsResourceLevelPermissions } := by
        unfold continuationStep
        rw [if_pos hc]
      obtain ⟨extra, hres, hmem, hnd, hall⟩ := ih (continuationStep a l)
      refine ⟨pyStrip l :: extra, ?_, ?_, ?_, ?_⟩
      · rw [hres, hstep]
        simp
      · intro x hx
        rcases List.mem_cons.mp hx with h | h
        · exact ⟨h ▸ List.mem_map_of_mem pyStrip (List.mem_cons_self l ls), h ▸ hc.2⟩
        · obtain ⟨h1, h2⟩ := hmem x h
          refine ⟨List.mem_cons_of_mem _ h1, fun hxa => h2 ?_⟩
          rw [hstep]
          simpa using Or.inl hxa
      · refine List.nodup_cons.mpr ⟨fun hin => ?_, hnd⟩
        have := (hmem _ hin).2
        rw [hstep] at this
        simp at this
      · intro l2 hl2 hne
        rcases List.mem_cons.mp hl2 with h | h
        · subst h
          rw [hres, hstep]
          simp
        · exact hall l2 h hne
    · have hstep : continuationStep a l = a := by
        simp only [continuationStep]
        rw [if_neg hc]
      rw [hstep]
      obtain ⟨extra, hres, hmem, hnd, hall⟩ := ih a
      refine ⟨extra, hres, ?_, hnd, ?_⟩
      · intro x hx
        obtain ⟨h1, h2⟩ := hmem x hx
        exact ⟨List.mem_cons_of_mem _ h1, h2⟩
      · intro l2 hl2 hne
        rcases List.mem_cons.mp hl2 with h | h
        · subst h
          push_neg at hc
          have hin := hc hne
          rw [hres]
          exact List.mem_append_left extra hin
        · exact hall l2 h hne

/-- The wildcard flag of the primary-row resource fold tracks exactly whether
some collected name holds a star. -/
lemma primaryResources_flag (links : List String) :
    ∀ st : List String × Bool,
      st.2 = st.1.any (fun r => pyContains r "*") →
      (links.foldl primaryResourceStep st).2 =
        (links.foldl primaryResourceStep st).1.any (fun r => pyContains r "*") := by
  induction links with
  | nil => exact fun st h => h
  | cons l ls ih =>
    intro st h
    simp only [List.foldl_cons]
    apply ih
    simp only [primaryResourceStep]
    split
    · simp only [List.any_append, List.any_cons, List.any_nil, Bool.or_false]
      rw [h]
      cases hpc : pyContains (pyStrip l) "*" <;> simp [hpc, Bool.or_comm]
    · exact h

/-- A continuation step preserves the wildcard-flag invariant. -/
lemma continuationStep_flag (a : ActionData) (l : String)
    (h : a.supportsResourceLevelPermissions = a.resources.any (fun r => pyContains r "*")) :
    (continuationStep a l).supportsResourceLevelPermissions =
      (continuationStep a l).resources.any (fun r => pyContains r "*") := by
  simp only [continuationStep]
  split
  · simp only [List.any_append, List.any_cons, List.any_nil, Bool.or_false]
    rw [h]
    cases hpc : pyContains (pyStrip l) "*" <;> simp [hpc, Bool.or_comm]
  · exact h

/-- Continuation merging preserves the wildcard-flag invariant. -/
lemma applyContinuation_flag (a : ActionData) (c : Cell)
    (h : a.supportsResourceLevelPermissions = a.resources.any (fun r => pyContains r "*")) :
    (applyContinuation a c).supportsResourceLevelPermissions =
      (applyContinuation a c).resources.any (fun r => pyContains r "*") := by
  unfold applyContinuation
  induction c.links generalizing a with
  | nil => exact h
  | cons l ls ih => exact ih (continuationStep a l) (continuationStep_flag a l h)

/-- A freshly parsed primary row satisfies the wildcard-flag invariant. -/
lemma parsePrimaryRow_flag (cells : List Cell) :
    (parsePrimaryRow cells).supportsResourceLevelPermissions =
      (parsePrimaryRow cells).resources.any (fun r => pyContains r "*") := by
  simp only [parsePrimaryRow, primaryResources]
  split
  · exact primaryResources_flag _ ([], false) rfl
  · rfl

/-- The dependency link fold appends a duplicate-free block of new
colon-bearing names to the initial list, and every link whose stripped text
is non-empty and holds a colon ends up in the final list, whether it was
already extracted before or is appended here. -/
lemma depLinkFold_spec (links : List String) :
    ∀ init : List String, ∃ extra : List String,
      links.foldl depLinkStep init = init ++ extra
      ∧ extra.Nodup
      ∧ (∀ x ∈ extra, x ∈ links.map pyStrip ∧ x ∉ init ∧ pyContains x ":" = true)
      ∧ (∀ l ∈ links, pyStrip l ≠ "" → pyContains (pyStrip l) ":" = true →
          pyStrip l ∈ links.foldl depLinkStep init) := by
  induction links with
  | nil =>
    intro init
    exact ⟨[], by simp, List.nodup_nil, by simp, by simp⟩
  | cons l ls ih =>
    intro init
    simp only [List.foldl_cons]
    by_cases hc : pyStrip l ≠ "" ∧ pyContains (pyStrip l) ":" ∧ pyStrip l ∉ init
    · have hstep : depLinkStep init l = init ++ [pyStrip l] := by
        unfold depLinkStep
        rw [if_pos hc]
      rw [hstep]
      obtain ⟨extra, heq, hnd, hmem, hall⟩ := ih (init ++ [pyStrip l])
      refine ⟨pyStrip l :: extra, by rw [heq]; simp, ?_, ?_, ?_⟩
      · refine List.nodup_cons.mpr ⟨fun hin => ?_, hnd⟩
        have := (hmem _ hin).2.1
        simp at this
      · intro x hx
        rcases List.mem_cons.mp hx with h | h
        · exact ⟨h ▸ List.mem_map_of_mem pyStrip (List.mem_cons_self l ls),
            h ▸ hc.2.2, h ▸ hc.2.1⟩
        · obtain ⟨h1, h2, h3⟩ := hmem x h
          refine ⟨List.mem_cons_of_mem _ h1, fun hxi => h2 ?_, h3⟩
          exact List.mem_append_left _ hxi
      · intro l2 hl2 hne hcol
        rcases List.mem_cons.mp hl2 with h | h
        · subst h
          rw [heq]
          exact List.mem_append_left extra (List.mem_append_right init (by simp))
        · exact hall l2 h hne hcol
    · have hstep : depLinkStep init l = init := by
        unfold depLinkStep
        rw [if_neg hc]
      rw [hstep]
      obtain ⟨extra, heq, hnd, hmem, hall⟩ := ih init
      refine ⟨extra, heq, hnd, ?_, ?_⟩
      · intro x hx
        obtain ⟨h1, h2, h3⟩ := hmem x hx
        exact ⟨List.mem_cons_of_mem _ h1, h2, h3⟩
      · intro l2 hl2 hne hcol
        rcases List.mem_cons.mp hl2 with h | h
        · subst h
          have hin : pyStrip l2 ∈ init := by
            by_contra hni
            exact hc ⟨hne, hcol, hni⟩
          rw [heq]
          exact List.mem_append_left extra hin
        · exact hall l2 h hne hcol

/-- The successes accumulated by the service loop are exactly the services
whose fetch returns a record, paired with their names, in processing
order. -/
lemma collect_fst (fetch : String → Option ScrapeResult) :
    ∀ (order : List String) (acc : List ServiceRecord × List String),
      (order.foldl (collectStep fetch) acc).1
        = acc.1 ++ order.filterMap
            (fun n => (fetch n).map (fun d => (⟨n, d⟩ : ServiceRecord))) := by
  intro order
  induction order with
  | nil => simp
  | cons n ns ih =>
    intro acc
    simp only [List.foldl_cons, List.filterMap_cons]
    cases h : fetch n with
    | none => simp [collectStep, h, ih]
    | some d =>
      simp only [collectStep, h, Option.map_some']
      rw [ih]
      simp

/-- The failures accumulated by the service loop are exactly the services
whose fetch returns nothing, in processing order. -/
lemma collect_snd (fetch : String → Option ScrapeResult) :
    ∀ (order : List String) (acc : List ServiceRecord × List String),
      (order.foldl (collectStep fetch) acc).2
        = acc.2 ++ order.filter (fun n => (fetch n).isNone) := by
  intro order
  induction order with
  | nil => simp
  | cons n ns ih =>
    intro acc
    simp only [List.foldl_cons, List.filter_cons]
    cases h : fetch n with
    | none =>
      simp only [collectStep, h, Option.isNone_none]
      rw [ih]
      simp
    | some d => simp [collectStep, h, ih]

/-- A record of the final services list comes from a successful fetch of its
own service id. -/
lemma mem_services_fetch (fetch : String → Option ScrapeResult) (order : List String)
    (r : ServiceRecord) (h : r ∈ (runPipeline fetch order).services) :
    ∃ d, fetch r.service = some d := by
  have hperm : r ∈ (collectResults fetch order).1 := by
    have := (List.perm_insertionSort recLE (collectResults fetch order).1).mem_iff (a := r)
    exact this.mp h
  rw [collectResults, collect_fst fetch order ([], [])] at hperm
  simp only [List.nil_append, List.mem_filterMap] at hperm
  obtain ⟨n, _, hn⟩ := hperm
  cases hf : fetch n with
  | none => rw [hf] at hn; simp at hn
  | some d =>
    rw [hf] at hn
    simp only [Option.map_some', Option.some.injEq] at hn
    exact ⟨d, by rw [← hn]; exact hf⟩

/-- A name of the final failure list had a failing fetch. -/
lemma mem_failed_fetch (fetch : String → Option ScrapeResult) (order : List String)
    (n : String) (h : n ∈ (runPipeline fetch order).failedServices) :
    fetch n = none := by
  have : n ∈ (collectResults fetch order).2 := h
  rw [collectResults, collect_snd fetch order ([], [])] at this
  simp only [List.nil_append, List.mem_filter] at this
  exact Option.isNone_iff_eq_none.mp this.2

/-- Two chained single-character filters collapse to one conjunctive
filter. -/
lemma filter_filter_chars (p q : Char → Bool) (l : List Char) :
    (l.filter p).filter q = l.filter (fun c => p c && q c) := by
  induction l with
  | nil => rfl
  | cons c cs ih =>
    by_cases hp : p c <;> by_cases hq : q c <;>
      simp [List.filter_cons, hp, hq, ih]

/-! Claim theorems. -/

/-- C1: in the operations table a 3-cell row met before any primary row is
discarded without error; after a primary row it updates exactly the most
recently created action, appending the non-empty stripped names found in the
links of its first cell while skipping every name already present, so the
appended block is duplicate-free and a duplicate-free resource list stays
duplicate-free. -/
theorem continuation_row_merge :
    (∀ cells : List Cell, cells.length = 3 → actionRowStep [] cells = [])
    ∧ (∀ (cur : ActionData) (rest : List ActionData) (cells : List Cell),
        cells.length = 3 →
        actionRowStep (cur :: rest) cells = applyContinuation cur (cellAt cells 0) :: rest)
    ∧ (∀ (cur : ActionData) (c : Cell), ∃ extra : List String,
        (applyContinuation cur c).resources = cur.resources ++ extra
        ∧ (∀ x ∈ extra, x ∈ c.links.map pyStrip ∧ x ∉ cur.resources)
        ∧ extra.Nodup
        ∧ (∀ l ∈ c.links, pyStrip l ≠ "" → pyStrip l ∈ (applyContinuation cur c).resources)
        ∧ (cur.resources.Nodup → (applyContinuation cur c).resources.Nodup)) := by
  refine ⟨?_, ?_, ?_⟩
  · intro cells h
    simp [actionRowStep, h]
  · intro cur rest cells h
    simp [actionRowStep, h]
  · intro cur c
    obtain ⟨extra, hres, hmem, hnd, hall⟩ := continuation_fold_spec c.links cur
    refine ⟨extra, hres, hmem, hnd, hall, ?_⟩
    intro hcur
    show (List.foldl continuationStep cur c.links).resources.Nodup
    rw [hres]
    rw [List.nodup_append]
    exact ⟨hcur, hnd, fun x hx hx2 => (hmem x hx2).2 hx⟩

theorem continuation_row_merge_witness :
    actionRowStep [] [⟨"", []⟩, ⟨"", []⟩, ⟨"", []⟩] = [] :=
  continuation_row_merge.1 [⟨"", []⟩, ⟨"", []⟩, ⟨"", []⟩] rfl

/-- C2 counterexample: the regex pass appends every match, so a dependency
text that repeats a reference yields a duplicated list, against the claim of
no duplicates for every input text. -/
theorem dependency_extractor_counterexample :
    ¬ (extract_dependent_actions "s3:GetObject s3:GetObject" []).Nodup := by
  decide

/-- C2 amended: the extractor returns the regex matches over the stripped raw
text in first-seen order, possibly with duplicates when a reference repeats
in the text, followed by the stripped hyperlink texts that hold a colon and
are not already extracted; that appended block is duplicate-free, and every
hyperlink whose stripped text is non-empty and holds a colon does end up in
the result. The two-reference example extracts exactly its two references,
and a run with hyperlinks appends the new colon-bearing link, skips the one
already extracted from the text and drops the colon-free one. -/
theorem dependency_extractor_amended :
    extract_dependent_actions "s3:GetObject, s3:PutObject" []
      = ["s3:GetObject", "s3:PutObject"]
    ∧ extract_dependent_actions "Also requires iam:PassRole"
        ["ec2:RunInstances", "iam:PassRole", "NoColon"]
      = ["iam:PassRole", "ec2:RunInstances"]
    ∧ (∀ (txt : String) (links : List String), ∃ extra : List String,
        extract_dependent_actions txt links = findDeps (pyStrip txt) ++ extra
        ∧ extra.Nodup
        ∧ (∀ x ∈ extra, x ∈ links.map pyStrip
            ∧ x ∉ findDeps (pyStrip txt) ∧ pyContains x ":" = true)
        ∧ (∀ l ∈ links, pyStrip l ≠ "" → pyContains (pyStrip l) ":" = true →
            pyStrip l ∈ extract_dependent_actions txt links)) := by
  refine ⟨by decide, by decide, ?_⟩
  intro txt links
  exact depLinkFold_spec links (findDeps (pyStrip txt))

theorem dependency_extractor_amended_witness :
    extract_dependent_actions "Also requires iam:PassRole"
        ["ec2:RunInstances", "iam:PassRole", "NoColon"]
      = ["iam:PassRole", "ec2:RunInstances"] :=
  dependency_extractor_amended.2.1

/-- C3: the resolver probes the override URL first whenever the normalized
identifier is in the override table, falls back to the template URLs in the
fixed order amazon, aws, bare name when there is no override or its probe
fails, returns the first probe success and none exactly when every probe
fails; the identity service identifier resolves to the overridden URL when
every probe succeeds. -/
theorem resolver_order (probe : String → Bool) (name : String) :
    (∀ page, SERVICE_SPECIAL_CASES.lookup (normalize_service_name name) = some page →
        probe (DOCS_BASE_URL ++ "/" ++ page) = true →
        get_service_doc_url probe name = some (DOCS_BASE_URL ++ "/" ++ page))
    ∧ (SERVICE_SPECIAL_CASES.lookup (normalize_service_name name) = none →
        get_service_doc_url probe name
          = firstProbeSuccess probe (patternUrls (normalize_service_name name)))
    ∧ (∀ page, SERVICE_SPECIAL_CASES.lookup (normalize_service_name name) = some page →
        probe (DOCS_BASE_URL ++ "/" ++ page) = false →
        get_service_doc_url probe name
          = firstProbeSuccess probe (patternUrls (normalize_service_name name)))
    ∧ (∀ (urls : List String) (u : String), firstProbeSuccess probe urls = some u →
        probe u = true ∧ u ∈ urls)
    ∧ (∀ urls : List String,
        firstProbeSuccess probe urls = none ↔ ∀ u ∈ urls, probe u = false)
    ∧ patternUrls (normalize_service_name name) =
        [DOCS_BASE_URL ++ "/" ++ ("list_amazon" ++ normalize_service_name name ++ ".html"),
         DOCS_BASE_URL ++ "/" ++ ("list_aws" ++ normalize_service_name name ++ ".html"),
         DOCS_BASE_URL ++ "/" ++ ("list_" ++ normalize_service_name name ++ ".html")]
    ∧ get_service_doc_url (fun _ => true) "Identity-And-Access-Management" =
        some (DOCS_BASE_URL ++ "/" ++ "list_awsidentityandaccessmanagementiam.html") := by
  refine ⟨?_, ?_, ?_, ?_, ?_, rfl, by decide⟩
  · intro page hpg hpr
    simp [get_service_doc_url, hpg, hpr]
  · intro h
    simp [get_service_doc_url, h]
  · intro page hpg hpr
    simp [get_service_doc_url, hpg, hpr]
  · intro urls u h
    induction urls with
    | nil => simp [firstProbeSuccess] at h
    | cons v vs ih =>
      rw [firstProbeSuccess] at h
      by_cases hv : probe v
      · rw [if_pos hv] at h
        cases h
        exact ⟨hv, List.mem_cons_self _ _⟩
      · rw [if_neg hv] at h
        obtain ⟨h1, h2⟩ := ih h
        exact ⟨h1, List.mem_cons_of_mem v h2⟩
  · intro urls
    induction urls with
    | nil => simp [firstProbeSuccess]
    | cons v vs ih =>
      rw [firstProbeSuccess]
      by_cases hv : probe v
      · simp [hv]
      · simp only [if_neg hv, ih]
        constructor
        · intro h u hu
          rcases List.mem_cons.mp hu with h2 | h2
          · exact h2 ▸ Bool.eq_false_iff.mpr hv
          · exact h u h2
        · intro h u hu
          exact h u (List.mem_cons_of_mem v hu)

theorem resolver_order_witness :
    get_service_doc_url (fun _ => true) "iam" =
      some (DOCS_BASE_URL ++ "/" ++ "list_awsidentityandaccessmanagementiam.html") :=
  (resolver_order (fun _ => true) "iam").1
    "list_awsidentityandaccessmanagementiam.html" (by decide) rfl

/-- C4 counterexample: a primary row with one resource link and no wildcard
marker produces a record whose resource list is non-empty while the flag is
false, refuting the claimed equivalence of the flag with non-emptiness of
the resource list. -/
theorem supports_rlp_counterexample :
    (parseActionRows [exPrimaryRow]).map
        (fun a => (a.resources, a.supportsResourceLevelPermissions))
      = [(["bucket"], false)] := by
  decide

/-- C4 amended: in the HTML-scraping pipeline the flag is true exactly when
some collected resource name holds a star, so a primary row with an empty
resource cell yields a false flag; in the directory pipeline the flag is
true exactly when the resource list of the action is non-empty. -/
theorem supports_rlp_amended :
    (∀ rows a, a ∈ parseActionRows rows →
        a.supportsResourceLevelPermissions = a.resources.any (fun r => pyContains r "*"))
    ∧ (∀ cells : List Cell, 6 ≤ cells.length → (cellAt cells 3).links = [] →
        (parsePrimaryRow cells).supportsResourceLevelPermissions = false)
    ∧ (∀ resources : List String, fetch_supportsRLP resources = !resources.isEmpty) := by
  refine ⟨?_, ?_, ?_⟩
  · exact parseActionRows_invariant _ parsePrimaryRow_flag
      (fun a c h => applyContinuation_flag a c h)
  · intro cells h6 hlinks
    have hres : (parsePrimaryRow cells).resources = [] := by
      simp only [parsePrimaryRow, primaryResources]
      rw [if_pos (by omega : 3 < cells.length), hlinks]
      rfl
    rw [parsePrimaryRow_flag, hres]
    rfl
  · intro resources
    cases resources <;> simp [fetch_supportsRLP]

theorem supports_rlp_amended_witness :
    (parsePrimaryRow exEmptyResRow).supportsResourceLevelPermissions = false :=
  supports_rlp_amended.2.1 exEmptyResRow (by decide) rfl

/-- C5 counterexample: a table whose header cells carry the operations
signature only case-insensitively is not classified at all, although its
body holds a parseable primary row, and permuting the header-cell texts of a
classified table leaves the parsed output unchanged, so the columns are read
by position and not located by header text. -/
theorem table_classification_counterexample :
    opsSigSpec exLowerTable.ths = true
    ∧ (parseActionRows (exLowerTable.trs.drop 1)).length = 1
    ∧ scrape_page [exLowerTable] = ⟨[], [], []⟩
    ∧ scrape_page [exSwappedTable] = scrape_page [exUpperTable]
    ∧ (scrape_page [exUpperTable]).actions ≠ [] := by
  decide

/-- C5 amended: classification is by exact, case-sensitive equality of the
stripped header-cell texts; a page where no table matches any signature
yields empty category lists rather than an error; and the parsed output of a
classified operations table does not depend on its header texts, the columns
being read by position. -/
theorem table_classification_amended :
    (∀ tables : List HtmlTable,
        (∀ t ∈ tables, opsSig t = false ∧ resSig t = false ∧ condSig t = false) →
        scrape_page tables = ⟨[], [], []⟩)
    ∧ (∀ (ths1 ths2 : List String) (rows : List (List Cell)),
        opsSig ⟨ths1, rows⟩ = true → opsSig ⟨ths2, rows⟩ = true →
        scrape_page [⟨ths1, rows⟩] = scrape_page [⟨ths2, rows⟩]) := by
  have hstep : ∀ (tables : List HtmlTable) (acc : ScrapeResult),
      (∀ t ∈ tables, opsSig t = false ∧ resSig t = false ∧ condSig t = false) →
      tables.foldl scrapeTableStep acc = acc := by
    intro tables
    induction tables with
    | nil => intro acc _; rfl
    | cons t ts ih =>
      intro acc h
      obtain ⟨h1, h2, h3⟩ := h t (List.mem_cons_self t ts)
      simp only [List.foldl_cons]
      rw [show scrapeTableStep acc t = acc by simp [scrapeTableStep, h1, h2, h3]]
      exact ih acc (fun t2 ht2 => h t2 (List.mem_cons_of_mem t ht2))
  constructor
  · exact fun tables h => hstep tables ⟨[], [], []⟩ h
  · intro ths1 ths2 rows h1 h2
    simp [scrape_page, scrapeTableStep, h1, h2]

theorem table_classification_amended_witness :
    scrape_page [] = ⟨[], [], []⟩ :=
  table_classification_amended.1 [] (by simp)

/-- C6: the mapping from access-level text to the enum, realized as the
properties computed from the text composed with the priority chain over
those properties, applies exactly the substring rules of the spec in the
priority order list, write, permission or management, tagging, read. -/
theorem access_level_mapping (t : String) :
    get_access_level (mkProperties t) = tierLabel (accessTierSpec t) := by
  simp only [get_access_level, mkProperties, accessTierSpec]
  split_ifs <;> simp_all [tierLabel]

/-- C7: for every fetch outcome and every processing or completion order,
the consolidated dataset reports a total equal to the length of the
services array, the services array is sorted by service id ascending, and
no service id of a successful record appears among the failed service
ids. -/
theorem dataset_invariants (fetch : String → Option ScrapeResult) (order : List String) :
    (runPipeline fetch order).totalServices = (runPipeline fetch order).services.length
    ∧ List.Sorted recLE (runPipeline fetch order).services
    ∧ ∀ r ∈ (runPipeline fetch order).services,
        r.service ∉ (runPipeline fetch order).failedServices := by
  refine ⟨rfl, ?_, ?_⟩
  · exact List.sorted_insertionSort recLE (collectResults fetch order).1
  · intro r hr hmem
    obtain ⟨d, hd⟩ := mem_services_fetch fetch order r hr
    have hn := mem_failed_fetch fetch order r.service hmem
    rw [hd] at hn
    cases hn

theorem dataset_invariants_witness :
    (⟨"svcA", ⟨[exAction], [], []⟩⟩ : ServiceRecord).service
      ∉ (runPipeline exFetch ["svcA", "svcB", "svcC"]).failedServices :=
  (dataset_invariants exFetch ["svcA", "svcB", "svcC"]).2.2
    ⟨"svcA", ⟨[exAction], [], []⟩⟩ (by decide)

/-- C8: with a three-service directory where the second service fails hard,
the run completes with the other two services fully recorded in the dataset
and exactly one failure entry; the service that fetched successfully but
yielded zero operations is recorded among the successes and not among the
failures. -/
theorem failure_isolation :
    (runPipeline exFetch ["svcA", "svcB", "svcC"]).services
        = [⟨"svcA", ⟨[exAction], [], []⟩⟩, ⟨"svcC", ⟨[], [], []⟩⟩]
    ∧ (runPipeline exFetch ["svcA", "svcB", "svcC"]).failedServices = ["svcB"]
    ∧ (∃ r ∈ (runPipeline exFetch ["svcA", "svcB", "svcC"]).services,
        r.service = "svcC" ∧ r.payload.actions = [])
    ∧ "svcC" ∉ (runPipeline exFetch ["svcA", "svcB", "svcC"]).failedServices := by
  decide

/-- C9: normalization removes every hyphen and underscore and lower-cases
the result in one pass, and the resolver depends on the raw identifier only
through this canonical form, which it uses for both the special-case lookup
and the URL construction. -/
theorem normalize_spec_equiv :
    (∀ s : String, normalize_service_name s = normalizeSpec s)
    ∧ (∀ (probe : String → Bool) (s t : String),
        normalize_service_name s = normalize_service_name t →
        get_service_doc_url probe s = get_service_doc_url probe t) := by
  constructor
  · intro s
    simp only [normalize_service_name, normalizeSpec, pyLower]
    rw [filter_filter_chars]
  · intro probe s t h
    simp only [get_service_doc_url]
    rw [h]

theorem normalize_spec_equiv_witness :
    get_service_doc_url (fun _ => false) "A-B" = get_service_doc_url (fun _ => false) "a_b" :=
  normalize_spec_equiv.2 (fun _ => false) "A-B" "a_b" (by decide)

/-- C10: every condition key of every record parsed from an operations table
came from a hyperlink text holding a colon, so every entry of the condition
keys list holds a colon; the fixture row shows that a link text without a
colon and a plain-text mention are silently dropped. -/
theorem condition_keys_colon :
    (∀ rows a, a ∈ parseActionRows rows → ∀ k ∈ a.conditionKeys, pyContains k ":" = true)
    ∧ (parsePrimaryRow exCondRow).conditionKeys = ["aws:RequestTag/TagKey"] := by
  constructor
  · refine parseActionRows_invariant
      (fun a => ∀ k ∈ a.conditionKeys, pyContains k ":" = true) ?_ ?_
    · intro cells k hk
      have hkeys : (parsePrimaryRow cells).conditionKeys =
          if 4 < cells.length then
            ((cellAt cells 4).links.map pyStrip).filter (fun k => !(k == "") && pyContains k ":")
          else [] := by
        simp only [parsePrimaryRow]
      rw [hkeys] at hk
      split at hk
      · have hp := (List.mem_filter.mp hk).2
        simp only [Bool.and_eq_true] at hp
        exact hp.2
      · simp at hk
    · intro a c h k hk
      rw [applyContinuation_conditionKeys] at hk
      exact h k hk
  · decide

theorem condition_keys_colon_witness :
    pyContains "aws:RequestTag/TagKey" ":" = true :=
  condition_keys_colon.1 [exCondRow] (parsePrimaryRow exCondRow) (by decide)
    "aws:RequestTag/TagKey" (by decide)

end AwsIam
